import Mathlib

/-!
Verification of the doctora token-stream parser.

This file embeds the core of the repository in Lean 4:

* `Token` mirrors `src/token.rs` (`enum Token`): a pure tag type.  The Rust
  enum carries no payload on any variant; `Word` in particular holds no text
  (source spans live only in the external Logos lexer state).
* `Inline`, `Block`, `Document` mirror `src/ast.rs`.
* `ParseError` and `ErrorRecovery` mirror `src/error_recovery.rs`.
* The Chumsky parser of `src/parser.rs` (`document`, `block`, `section`,
  `paragraph`, `inline`) and the Winnow parser of `src/parser_winnow.rs`
  (`parse_document_winnow`, `block`, `section`, `paragraph`, `inline`,
  `bold`, `italic`, `text`) are embedded as fuel-indexed recursive functions
  over `List Token` returning `Option (result × remaining tokens)`.

Semantics of the embedding: both Chumsky 0.11 (as used here, with
`choice`, `just`, `repeated`, `or_not`, `end`) and Winnow 0.7 (with `alt`,
`repeat`, `opt`, `delimited`, `terminated`, `eof`, and only Backtrack
errors, no `cut_err`) are PEG-style parsers: alternation tries branches in
order from the same position, and repetition is greedy and possessive
(it never backtracks to fewer iterations).  A parser either succeeds,
returning a value and the remaining suffix of the token list, or fails;
`Option` models exactly this.  Error payloads (Chumsky `Simple`, Winnow
`ContextError`) carry no structured information used by any caller - the
library surfaces them only as formatted `String`s - so failure is modelled
as `none`.

Fuel: the recursive grammar is not structurally recursive on the token
list alone, so every parser function takes a fuel argument decremented at
each call; the entry points supply `4 * length + 8` fuel.  Fuel bounds
only the call depth (each call passes `n - 1` to its children, so sibling
calls do not share a budget), and every cycle of the call graph consumes
at least one token while costing at most four calls, so this budget is
never exhausted on any input; running out of fuel would yield `none`.
All success results are faithful, and the failure theorems below are
proved for the entry points exactly as defined.

In `inline` (identical in both backends), the three alternatives of
`choice((bold, italic, text))` are determined by disjoint first tokens
(`BoldDelimiter`, `ItalicDelimiter`, `Word`): an alternative whose first
token does not match fails without consuming input, so the choice is
embedded as a single match on the head token, with the body of the
selected alternative inlined.  This left-factoring is exact.
-/

namespace Doctora

/-- Tokens of `src/token.rs`.  Every variant is payload-free in the Rust
source; `Word` is the `TextRun` of the spec and carries no text. -/
inductive Token where
  | Heading1
  | Heading2
  | Heading3
  | Heading4
  | Heading5
  | Heading6
  | BoldDelimiter
  | ItalicDelimiter
  | Newline
  | BlankLine
  | Word
  deriving DecidableEq

/-- Inline AST nodes of `src/ast.rs` (`enum Inline`). -/
inductive Inline where
  | Text : String → Inline
  | Bold : List Inline → Inline
  | Italic : List Inline → Inline

/-- Block AST nodes of `src/ast.rs` (`enum Block`).  `Section` holds the
heading level (u8 in Rust, embedded as Nat), the title string and the
nested blocks. -/
inductive Block where
  | Section : Nat → String → List Block → Block
  | Paragraph : List Inline → Block

/-- Root document node of `src/ast.rs` (`struct Document`). -/
structure Document where
  blocks : List Block

/-- Structured parse errors of `src/error_recovery.rs` (`enum ParseError`).
Defined in the repository but never constructed by either parser. -/
inductive ParseError where
  | UnexpectedToken : Nat → String → String → ParseError
  | UnclosedDelimiter : String → Nat → ParseError
  | InvalidStructure : String → ParseError
  | UnexpectedEOF : String → ParseError
  deriving DecidableEq

/-- Error recovery context of `src/error_recovery.rs`
(`struct ErrorRecovery`): a list of accumulated errors plus the
fail-fast flag.  The Rust struct is marked design-only / dead code. -/
structure ErrorRecovery where
  errors : List ParseError
  fail_fast : Bool
  deriving DecidableEq

/-- `ErrorRecovery::new` of `src/error_recovery.rs`: empty error list,
and `fail_fast` defaults to `true`. -/
def ErrorRecovery.new : ErrorRecovery :=
  { errors := [], fail_fast := true }

/-- `ErrorRecovery::record_error` of `src/error_recovery.rs`. -/
def ErrorRecovery.record_error (r : ErrorRecovery) (e : ParseError) : ErrorRecovery :=
  { r with errors := r.errors ++ [e] }

/-- `ErrorRecovery::has_errors` of `src/error_recovery.rs`. -/
def ErrorRecovery.has_errors (r : ErrorRecovery) : Bool :=
  !r.errors.isEmpty

/-- The `select!` of `src/parser.rs::section` lines 90-97 and
`src/parser_winnow.rs::heading_level` lines 191-202: map a heading token
to its level, reject every other token. -/
def headingLevel : Token → Option Nat
  | Token.Heading1 => some 1
  | Token.Heading2 => some 2
  | Token.Heading3 => some 3
  | Token.Heading4 => some 4
  | Token.Heading5 => some 5
  | Token.Heading6 => some 6
  | _ => none

/-- Greedy run of `Token::Word`: returns how many words were consumed and
the remaining tokens (`just(Token::Word).repeated()`). -/
def wordsStar : List Token → Nat × List Token
  | Token.Word :: rest =>
    let p := wordsStar rest
    (p.1 + 1, p.2)
  | ts => (0, ts)

/-- One-or-more `Token::Word`, as in the section title parsers:
`just(Token::Word).repeated().at_least(1)` in `src/parser.rs` lines
100-108 and `repeat(1.., token(Token::Word))` in `src/parser_winnow.rs`
line 169.  The collected words are discarded; only their count is kept,
mirroring `|_words|` in the source. -/
def words1 : List Token → Option (Nat × List Token)
  | Token.Word :: rest =>
    let p := wordsStar rest
    some (p.1 + 1, p.2)
  | _ => none

/-- The separator after a heading line:
`choice((just(Token::Newline), just(Token::BlankLine)))` in
`src/parser.rs` line 113, `alt((token(Token::Newline),
token(Token::BlankLine)))` in `src/parser_winnow.rs` line 175. -/
def headingSep : List Token → Option (List Token)
  | Token.Newline :: rest => some rest
  | Token.BlankLine :: rest => some rest
  | _ => none

/-- Match one exact token and drop it, as in Chumsky `just(t)` and the
Winnow helper `token(t)` (`src/parser_winnow.rs` lines 253-255). -/
def expectTok (t : Token) : List Token → Option (List Token)
  | u :: rest => if u = t then some rest else none
  | [] => none

/-- The heading-marker step of both section parsers: consume one token
and map it to its level via `headingLevel`, rejecting non-heading heads
(`select!` in `src/parser.rs`, `any.verify_map` in
`src/parser_winnow.rs::heading_level`). -/
def selectHeading : List Token → Option (Nat × List Token)
  | t :: rest => (headingLevel t).map (fun lvl => (lvl, rest))
  | [] => none

/-- Greedy skip of blank lines: `just(Token::BlankLine).repeated()`
(`src/parser.rs` line 72) and `repeat(0.., token(Token::BlankLine))`
(`src/parser_winnow.rs` lines 181, 213). -/
def skipBlanks : List Token → List Token
  | Token.BlankLine :: rest => skipBlanks rest
  | ts => ts

/-- Optional trailing newline: `just(Token::Newline).or_not()`
(`src/parser.rs` line 138) and `opt(token(Token::Newline))`
(`src/parser_winnow.rs` line 210). -/
def optNewline : List Token → List Token
  | Token.Newline :: rest => rest
  | ts => ts

mutual

/-- `src/parser.rs::inline` lines 154-176:
`choice((bold, italic, text))` with
`bold = just(BoldDelimiter) ignore_then inline+ then_ignore just(BoldDelimiter)`,
`italic` the same with `ItalicDelimiter`, and
`text = just(Word).map(|_| Inline::Text("word"))`.  The three alternatives
are selected by disjoint first tokens, so the choice is one match on the
head token (see the module comment). -/
def inlineC : Nat → List Token → Option (Inline × List Token)
  | 0, _ => none
  | n + 1, ts =>
    match ts with
    | Token.BoldDelimiter :: rest =>
      (inlineSeq1C n rest).bind (fun p =>
        (expectTok Token.BoldDelimiter p.2).map (fun r2 => (Inline.Bold p.1, r2)))
    | Token.ItalicDelimiter :: rest =>
      (inlineSeq1C n rest).bind (fun p =>
        (expectTok Token.ItalicDelimiter p.2).map (fun r2 => (Inline.Italic p.1, r2)))
    | Token.Word :: rest => some (Inline.Text "word", rest)
    | _ => none

/-- `inline.repeated().at_least(1).collect()` of `src/parser.rs`:
one inline followed by a greedy star. -/
def inlineSeq1C : Nat → List Token → Option (List Inline × List Token)
  | 0, _ => none
  | n + 1, ts =>
    match inlineC n ts with
    | none => none
    | some (i, r) =>
      match inlineStarC n r with
      | none => none
      | some (is, r2) => some (i :: is, r2)

/-- Greedy possessive star over `inlineC`; stops at the first failure. -/
def inlineStarC : Nat → List Token → Option (List Inline × List Token)
  | 0, _ => none
  | n + 1, ts =>
    match inlineC n ts with
    | none => some ([], ts)
    | some (i, r) =>
      match inlineStarC n r with
      | none => none
      | some (is, r2) => some (i :: is, r2)

end

/-- `src/parser.rs::paragraph` lines 132-140:
`inline.repeated().at_least(1)` then an ignored optional newline. -/
def paragraphC : Nat → List Token → Option (Block × List Token)
  | 0, _ => none
  | n + 1, ts =>
    (inlineSeq1C n ts).map (fun p => (Block.Paragraph p.1, optNewline p.2))

mutual

/-- `src/parser.rs::section` lines 86-120: heading level, one-or-more
title words mapped to the placeholder title string, a newline or blank
line, then a greedy star of nested blocks. -/
def sectionC : Nat → List Token → Option (Block × List Token)
  | 0, _ => none
  | n + 1, ts =>
    (selectHeading ts).bind (fun ph =>
      (words1 ph.2).bind (fun pw =>
        (headingSep pw.2).bind (fun r2 =>
          (blockStarC n r2).map (fun ps =>
            (Block.Section ph.1 "Section" ps.1, ps.2)))))

/-- `src/parser.rs::block` lines 65-74: `choice((section, paragraph))`
followed by an ignored greedy skip of blank lines. -/
def blockC : Nat → List Token → Option (Block × List Token)
  | 0, _ => none
  | n + 1, ts =>
    match sectionC n ts with
    | some (b, r) => some (b, skipBlanks r)
    | none =>
      match paragraphC n ts with
      | some (b, r) => some (b, skipBlanks r)
      | none => none

/-- `block().repeated().collect()` of `src/parser.rs::document`:
greedy possessive star over `blockC`. -/
def blockStarC : Nat → List Token → Option (List Block × List Token)
  | 0, _ => none
  | n + 1, ts =>
    match blockC n ts with
    | none => some ([], ts)
    | some (b, r) =>
      match blockStarC n r with
      | none => none
      | some (bs, r2) => some (b :: bs, r2)

end

/-- `src/parser.rs::document` lines 50-56 combined with
`Parser::parse(...).into_result()` as used in `src/lib.rs::parse_document`:
a star of blocks that must consume the whole input (`then_ignore(end())`),
wrapped into `Document::with_blocks`.  Failure (of any kind) is `none`;
the Rust error payload is only ever formatted to a `String`. -/
def document (ts : List Token) : Option Document :=
  match blockStarC (4 * ts.length + 8) ts with
  | some (bs, []) => some { blocks := bs }
  | _ => none

mutual

/-- `src/parser_winnow.rs::inline` lines 219-221 with `bold` (231-239),
`italic` (242-250) and `text` (224-228):
`alt((bold, italic, text))` where `bold` is
`delimited(token(BoldDelimiter), repeat(1.., inline), token(BoldDelimiter))`,
`italic` the same with `ItalicDelimiter`, and `text` maps `Token::Word` to
`Inline::Text("word")`.  As in the Chumsky backend, the alternatives are
selected by disjoint first tokens, so the `alt` is one match on the head
token (see the module comment). -/
def inlineW : Nat → List Token → Option (Inline × List Token)
  | 0, _ => none
  | n + 1, ts =>
    match ts with
    | Token.BoldDelimiter :: rest =>
      (inlineSeq1W n rest).bind (fun p =>
        (expectTok Token.BoldDelimiter p.2).map (fun r2 => (Inline.Bold p.1, r2)))
    | Token.ItalicDelimiter :: rest =>
      (inlineSeq1W n rest).bind (fun p =>
        (expectTok Token.ItalicDelimiter p.2).map (fun r2 => (Inline.Italic p.1, r2)))
    | Token.Word :: rest => some (Inline.Text "word", rest)
    | _ => none

/-- `repeat(1.., inline)` of `src/parser_winnow.rs`: one inline followed
by a greedy star. -/
def inlineSeq1W : Nat → List Token → Option (List Inline × List Token)
  | 0, _ => none
  | n + 1, ts =>
    match inlineW n ts with
    | none => none
    | some (i, r) =>
      match inlineStarW n r with
      | none => none
      | some (is, r2) => some (i :: is, r2)

/-- Greedy possessive star over `inlineW`; stops at the first failure. -/
def inlineStarW : Nat → List Token → Option (List Inline × List Token)
  | 0, _ => none
  | n + 1, ts =>
    match inlineW n ts with
    | none => some ([], ts)
    | some (i, r) =>
      match inlineStarW n r with
      | none => none
      | some (is, r2) => some (i :: is, r2)

end

/-- `src/parser_winnow.rs::paragraph` lines 205-216:
`repeat(1.., inline)`, an ignored optional newline, then an ignored
greedy skip of blank lines. -/
def paragraphW : Nat → List Token → Option (Block × List Token)
  | 0, _ => none
  | n + 1, ts =>
    (inlineSeq1W n ts).map (fun p => (Block.Paragraph p.1, skipBlanks (optNewline p.2)))

mutual

/-- `src/parser_winnow.rs::section` lines 164-188: heading level,
one-or-more title words mapped to the placeholder title, a newline or
blank line, a greedy star of nested blocks, then an ignored greedy skip
of trailing blank lines. -/
def sectionW : Nat → List Token → Option (Block × List Token)
  | 0, _ => none
  | n + 1, ts =>
    (selectHeading ts).bind (fun ph =>
      (words1 ph.2).bind (fun pw =>
        (headingSep pw.2).bind (fun r2 =>
          (blockStarW n r2).map (fun ps =>
            (Block.Section ph.1 "Section" ps.1, skipBlanks ps.2)))))

/-- `src/parser_winnow.rs::block` lines 158-161:
`alt((section, paragraph))`. -/
def blockW : Nat → List Token → Option (Block × List Token)
  | 0, _ => none
  | n + 1, ts =>
    match sectionW n ts with
    | some (b, r) => some (b, r)
    | none =>
      match paragraphW n ts with
      | some (b, r) => some (b, r)
      | none => none

/-- `repeat(0.., block)` of `src/parser_winnow.rs::parse_document_winnow`:
greedy possessive star over `blockW`. -/
def blockStarW : Nat → List Token → Option (List Block × List Token)
  | 0, _ => none
  | n + 1, ts =>
    match blockW n ts with
    | none => some ([], ts)
    | some (b, r) =>
      match blockStarW n r with
      | none => none
      | some (bs, r2) => some (b :: bs, r2)

end

/-- `src/parser_winnow.rs::parse_document_winnow` lines 148-155:
`terminated(repeat(0.., block), eof)` wrapped into
`Document::with_blocks`; the Rust error is only ever formatted to a
`String`, so failure is `none`. -/
def parse_document_winnow (ts : List Token) : Option Document :=
  match blockStarW (4 * ts.length + 8) ts with
  | some (bs, []) => some { blocks := bs }
  | _ => none

mutual

/-- Specification predicate: every `Bold` and `Italic` node in the inline
tree has a non-empty child list. -/
def inlineNE : Inline → Bool
  | Inline.Text _ => true
  | Inline.Bold is => !is.isEmpty && inlineListNE is
  | Inline.Italic is => !is.isEmpty && inlineListNE is

/-- `inlineNE` on every element of a list. -/
def inlineListNE : List Inline → Bool
  | [] => true
  | i :: rest => inlineNE i && inlineListNE rest

end

mutual

/-- Specification predicate: every `Bold` and `Italic` node in a block has
a non-empty child list. -/
def blockNE : Block → Bool
  | Block.Section _ _ bs => blockListNE bs
  | Block.Paragraph is => inlineListNE is

/-- `blockNE` on every element of a list. -/
def blockListNE : List Block → Bool
  | [] => true
  | b :: rest => blockNE b && blockListNE rest

end

/-- Specification predicate: every `Bold` and `Italic` node in the
document has a non-empty child list. -/
def docNE (d : Document) : Bool :=
  blockListNE d.blocks

mutual

/-- Specification predicate: every `Text` leaf of the inline tree holds
exactly the fixed string "word". -/
def inlineFixed : Inline → Bool
  | Inline.Text s => s == "word"
  | Inline.Bold is => inlineListFixed is
  | Inline.Italic is => inlineListFixed is

/-- `inlineFixed` on every element of a list. -/
def inlineListFixed : List Inline → Bool
  | [] => true
  | i :: rest => inlineFixed i && inlineListFixed rest

end

mutual

/-- Specification predicate: every `Text` leaf under the block holds
exactly "word" and every `Section` title is exactly "Section". -/
def blockFixed : Block → Bool
  | Block.Section _ title bs => (title == "Section") && blockListFixed bs
  | Block.Paragraph is => inlineListFixed is

/-- `blockFixed` on every element of a list. -/
def blockListFixed : List Block → Bool
  | [] => true
  | b :: rest => blockFixed b && blockListFixed rest

end

/-- Specification predicate: every `Text` leaf of the document holds
exactly "word" and every `Section` title is exactly "Section". -/
def docFixed (d : Document) : Bool :=
  blockListFixed d.blocks

/-- Token sequence of a run of consecutive heading lines, one line
`<heading> <word> \n` per entry, e.g. the lexing of
`"= A\n== B\n=== C\n"`. -/
def runTokens : List Token → List Token
  | [] => []
  | h :: rest => h :: Token.Word :: Token.Newline :: runTokens rest

/-- The strictly right-nested section chain the greedy nesting policy
produces for a run of headings: each heading becomes the single child of
the previous one, with the placeholder title. -/
def chainList : List Token → List Block
  | [] => []
  | h :: rest => [Block.Section ((headingLevel h).getD 0) "Section" (chainList rest)]

/-! Helper lemmas.  First: the two backends compute the same function.
The inline parsers have literally the same structure; at block level the
only difference is where trailing blank lines are skipped (after the
choice in the Chumsky `block`, at the end of `section` and `paragraph` in
the Winnow backend), which the relation lemmas make precise. -/

theorem inlineFamily_eq : ∀ n : Nat,
    (∀ ts, inlineW n ts = inlineC n ts) ∧
    (∀ ts, inlineSeq1W n ts = inlineSeq1C n ts) ∧
    (∀ ts, inlineStarW n ts = inlineStarC n ts) := by
  intro n
  induction n with
  | zero => exact ⟨fun _ => rfl, fun _ => rfl, fun _ => rfl⟩
  | succ n ih =>
    obtain ⟨h1, h2, h3⟩ := ih
    refine ⟨fun ts => ?_, fun ts => ?_, fun ts => ?_⟩
    · simp only [inlineW, inlineC, h2]
    · simp only [inlineSeq1W, inlineSeq1C, h1, h3]
    · simp only [inlineStarW, inlineStarC, h1, h3]

theorem paragraph_rel : ∀ (n : Nat) (ts : List Token),
    paragraphW n ts = (paragraphC n ts).map (fun p => (p.1, skipBlanks p.2)) := by
  intro n ts
  cases n with
  | zero => rfl
  | succ n =>
    simp only [paragraphW, paragraphC, (inlineFamily_eq n).2.1]
    cases inlineSeq1C n ts with
    | none => rfl
    | some p => rfl

theorem blockFamily_rel : ∀ n : Nat,
    (∀ ts, sectionW n ts = (sectionC n ts).map (fun p => (p.1, skipBlanks p.2))) ∧
    (∀ ts, blockW n ts = blockC n ts) ∧
    (∀ ts, blockStarW n ts = blockStarC n ts) := by
  intro n
  induction n with
  | zero => exact ⟨fun _ => rfl, fun _ => rfl, fun _ => rfl⟩
  | succ n ih =>
    obtain ⟨hsec, hb, hst⟩ := ih
    refine ⟨fun ts => ?_, fun ts => ?_, fun ts => ?_⟩
    · simp only [sectionW, sectionC, hst]
      cases selectHeading ts with
      | none => rfl
      | some ph =>
        simp only [Option.some_bind]
        cases words1 ph.2 with
        | none => rfl
        | some pw =>
          simp only [Option.some_bind]
          cases headingSep pw.2 with
          | none => rfl
          | some r2 =>
            simp only [Option.some_bind]
            cases blockStarC n r2 with
            | none => rfl
            | some ps => rfl
    · simp only [blockW, blockC, hsec, paragraph_rel n ts]
      cases sectionC n ts with
      | some p => rfl
      | none =>
        cases paragraphC n ts with
        | none => rfl
        | some p => rfl
    · simp only [blockStarW, blockStarC, hb, hst]

theorem parsersAgree (ts : List Token) : document ts = parse_document_winnow ts := by
  unfold document parse_document_winnow
  rw [(blockFamily_rel (4 * ts.length + 8)).2.2]

/-! Failure of every parser on the empty input and on a `BlankLine` head,
for every fuel value: no alternative of `block` or `inline` starts with a
blank line, and every alternative needs at least one token. -/

theorem inlineC_nil : ∀ n, inlineC n [] = none := by
  intro n; cases n <;> rfl

theorem inlineSeq1C_nil : ∀ n, inlineSeq1C n [] = none := by
  intro n
  cases n with
  | zero => rfl
  | succ n => simp [inlineSeq1C, inlineC_nil]

theorem paragraphC_nil : ∀ n, paragraphC n [] = none := by
  intro n
  cases n with
  | zero => rfl
  | succ n => simp [paragraphC, inlineSeq1C_nil]

theorem sectionC_nil : ∀ n, sectionC n [] = none := by
  intro n; cases n <;> rfl

theorem blockC_nil : ∀ n, blockC n [] = none := by
  intro n
  cases n with
  | zero => rfl
  | succ n => simp [blockC, sectionC_nil, paragraphC_nil]

theorem blockStarC_nil : ∀ n, blockStarC (n + 1) [] = some ([], []) := by
  intro n; simp [blockStarC, blockC_nil]

theorem inlineC_blank : ∀ n ts, inlineC n (Token.BlankLine :: ts) = none := by
  intro n ts; cases n <;> rfl

theorem inlineSeq1C_blank : ∀ n ts, inlineSeq1C n (Token.BlankLine :: ts) = none := by
  intro n ts
  cases n with
  | zero => rfl
  | succ n => simp [inlineSeq1C, inlineC_blank]

theorem paragraphC_blank : ∀ n ts, paragraphC n (Token.BlankLine :: ts) = none := by
  intro n ts
  cases n with
  | zero => rfl
  | succ n => simp [paragraphC, inlineSeq1C_blank]

theorem sectionC_blank : ∀ n ts, sectionC n (Token.BlankLine :: ts) = none := by
  intro n ts; cases n <;> rfl

theorem blockC_blank : ∀ n ts, blockC n (Token.BlankLine :: ts) = none := by
  intro n ts
  cases n with
  | zero => rfl
  | succ n => simp [blockC, sectionC_blank, paragraphC_blank]

theorem blockStarC_blank : ∀ n ts,
    blockStarC (n + 1) (Token.BlankLine :: ts) = some ([], Token.BlankLine :: ts) := by
  intro n ts; simp [blockStarC, blockC_blank]

/-! The greedy nesting chain for runs of heading lines (claim C2). -/

theorem runTokens_length : ∀ hs : List Token, (runTokens hs).length = 3 * hs.length := by
  intro hs
  induction hs with
  | nil => rfl
  | cons h rest ih => simp [runTokens, ih]; omega

theorem blockStarC_succ (n : Nat) (ts : List Token) :
    blockStarC (n + 1) ts =
      match blockC n ts with
      | none => some ([], ts)
      | some (b, r) =>
        match blockStarC n r with
        | none => none
        | some (bs, r2) => some (b :: bs, r2) := rfl

theorem blockStarC_run : ∀ hs : List Token, (∀ t ∈ hs, (headingLevel t).isSome = true) →
    ∀ n, 3 * hs.length + 1 ≤ n →
    blockStarC n (runTokens hs) = some (chainList hs, []) := by
  intro hs
  induction hs with
  | nil =>
    intro _ n hn
    obtain ⟨m, rfl⟩ : ∃ m, n = m + 1 := ⟨n - 1, by omega⟩
    simp [runTokens, chainList, blockStarC_nil]
  | cons h rest ih =>
    intro hall n hn
    have hh : (headingLevel h).isSome = true := hall h (List.mem_cons_self _ _)
    obtain ⟨lvl, hlvl⟩ := Option.isSome_iff_exists.mp hh
    simp only [List.length_cons] at hn
    obtain ⟨j, rfl⟩ : ∃ j, n = j + 2 + 1 := ⟨n - 3, by omega⟩
    have hstar := ih (fun t ht => hall t (List.mem_cons_of_mem _ ht)) j (by omega)
    have hsec : sectionC (j + 1) (runTokens (h :: rest)) =
        some (Block.Section lvl "Section" (chainList rest), []) := by
      simp [runTokens, sectionC, selectHeading, hlvl, words1, wordsStar, headingSep, hstar]
    have hblock : blockC (j + 1 + 1) (runTokens (h :: rest)) =
        some (Block.Section lvl "Section" (chainList rest), []) := by
      simp only [blockC, hsec]
      rfl
    rw [blockStarC_succ, hblock]
    have hrest : blockStarC (j + 2) [] = some ([], []) := blockStarC_nil (j + 1)
    simp [hrest, chainList, hlvl]

/-! Invariants of every successfully parsed tree: non-empty Bold and
Italic children, and the fixed placeholder strings. -/

theorem inline_inv : ∀ n : Nat,
    (∀ ts i r, inlineC n ts = some (i, r) → inlineNE i = true ∧ inlineFixed i = true) ∧
    (∀ ts is r, inlineSeq1C n ts = some (is, r) →
      is ≠ [] ∧ inlineListNE is = true ∧ inlineListFixed is = true) ∧
    (∀ ts is r, inlineStarC n ts = some (is, r) →
      inlineListNE is = true ∧ inlineListFixed is = true) := by
  intro n
  induction n with
  | zero =>
    refine ⟨?_, ?_, ?_⟩ <;> intro ts a r h <;>
      simp [inlineC, inlineSeq1C, inlineStarC] at h
  | succ n ih =>
    obtain ⟨ih1, ih2, ih3⟩ := ih
    refine ⟨?_, ?_, ?_⟩
    · intro ts i r h
      cases ts with
      | nil => simp [inlineC] at h
      | cons t rest =>
        cases t
        case BoldDelimiter =>
          simp only [inlineC] at h
          rw [Option.bind_eq_some] at h
          obtain ⟨p, hp, hmap⟩ := h
          rw [Option.map_eq_some'] at hmap
          obtain ⟨r2, hexp, heq⟩ := hmap
          obtain ⟨hne, hlne, hlfx⟩ := ih2 rest p.1 p.2 hp
          injection heq with hi hr
          subst hi
          refine ⟨?_, by simp [inlineFixed, hlfx]⟩
          cases hc : p.1 with
          | nil => exact absurd hc hne
          | cons a as =>
            simp only [hc] at hlne
            simp [inlineNE, hc, hlne]
        case ItalicDelimiter =>
          simp only [inlineC] at h
          rw [Option.bind_eq_some] at h
          obtain ⟨p, hp, hmap⟩ := h
          rw [Option.map_eq_some'] at hmap
          obtain ⟨r2, hexp, heq⟩ := hmap
          obtain ⟨hne, hlne, hlfx⟩ := ih2 rest p.1 p.2 hp
          injection heq with hi hr
          subst hi
          refine ⟨?_, by simp [inlineFixed, hlfx]⟩
          cases hc : p.1 with
          | nil => exact absurd hc hne
          | cons a as =>
            simp only [hc] at hlne
            simp [inlineNE, hc, hlne]
        case Word =>
          simp only [inlineC] at h
          injection h with h1
          injection h1 with hi hr
          subst hi
          simp [inlineNE, inlineFixed]
        all_goals simp [inlineC] at h
    · intro ts is r h
      cases hfst : inlineC n ts with
      | none => simp [inlineSeq1C, hfst] at h
      | some p =>
        simp only [inlineSeq1C, hfst] at h
        cases hsnd : inlineStarC n p.2 with
        | none => simp [hsnd] at h
        | some q =>
          simp only [hsnd] at h
          injection h with h1
          injection h1 with hi hr
          subst hi
          obtain ⟨hne1, hfx1⟩ := ih1 ts p.1 p.2 hfst
          obtain ⟨hne2, hfx2⟩ := ih3 p.2 q.1 q.2 hsnd
          refine ⟨by simp, ?_, ?_⟩ <;> simp [inlineListNE, inlineListFixed, hne1, hfx1, hne2, hfx2]
    · intro ts is r h
      cases hfst : inlineC n ts with
      | none =>
        simp only [inlineStarC, hfst] at h
        injection h with h1
        injection h1 with hi hr
        subst hi
        simp [inlineListNE, inlineListFixed]
      | some p =>
        simp only [inlineStarC, hfst] at h
        cases hsnd : inlineStarC n p.2 with
        | none => simp [hsnd] at h
        | some q =>
          simp only [hsnd] at h
          injection h with h1
          injection h1 with hi hr
          subst hi
          obtain ⟨hne1, hfx1⟩ := ih1 ts p.1 p.2 hfst
          obtain ⟨hne2, hfx2⟩ := ih3 p.2 q.1 q.2 hsnd
          refine ⟨?_, ?_⟩ <;> simp [inlineListNE, inlineListFixed, hne1, hfx1, hne2, hfx2]


theorem block_inv : ∀ n : Nat,
    (∀ ts b r, sectionC n ts = some (b, r) → blockNE b = true ∧ blockFixed b = true) ∧
    (∀ ts b r, paragraphC n ts = some (b, r) → blockNE b = true ∧ blockFixed b = true) ∧
    (∀ ts b r, blockC n ts = some (b, r) → blockNE b = true ∧ blockFixed b = true) ∧
    (∀ ts bs r, blockStarC n ts = some (bs, r) →
      blockListNE bs = true ∧ blockListFixed bs = true) := by
  intro n
  induction n with
  | zero =>
    refine ⟨?_, ?_, ?_, ?_⟩ <;> intro ts a r h <;>
      simp [sectionC, paragraphC, blockC, blockStarC] at h
  | succ n ih =>
    obtain ⟨ihs, ihp, ihb, ihst⟩ := ih
    refine ⟨?_, ?_, ?_, ?_⟩
    · intro ts b r h
      simp only [sectionC] at h
      rw [Option.bind_eq_some] at h
      obtain ⟨ph, hph, h⟩ := h
      rw [Option.bind_eq_some] at h
      obtain ⟨pw, hpw, h⟩ := h
      rw [Option.bind_eq_some] at h
      obtain ⟨r2, hr2, h⟩ := h
      rw [Option.map_eq_some'] at h
      obtain ⟨ps, hps, heq⟩ := h
      injection heq with hb hr
      subst hb
      obtain ⟨hne, hfx⟩ := ihst r2 ps.1 ps.2 hps
      exact ⟨by simp [blockNE, hne], by simp [blockFixed, hfx]⟩
    · intro ts b r h
      simp only [paragraphC] at h
      rw [Option.map_eq_some'] at h
      obtain ⟨p, hp, heq⟩ := h
      injection heq with hb hr
      subst hb
      obtain ⟨hne0, hne, hfx⟩ := (inline_inv n).2.1 ts p.1 p.2 hp
      exact ⟨by simp [blockNE, hne], by simp [blockFixed, hfx]⟩
    · intro ts b r h
      cases hsec : sectionC n ts with
      | some p =>
        simp only [blockC, hsec] at h
        injection h with h1
        injection h1 with hb hr
        subst hb
        exact ihs ts p.1 p.2 hsec
      | none =>
        simp only [blockC, hsec] at h
        cases hpar : paragraphC n ts with
        | none => simp [hpar] at h
        | some p =>
          simp only [hpar] at h
          injection h with h1
          injection h1 with hb hr
          subst hb
          exact ihp ts p.1 p.2 hpar
    · intro ts bs r h
      cases hfst : blockC n ts with
      | none =>
        simp only [blockStarC, hfst] at h
        injection h with h1
        injection h1 with hb hr
        subst hb
        simp [blockListNE, blockListFixed]
      | some p =>
        simp only [blockStarC, hfst] at h
        cases hsnd : blockStarC n p.2 with
        | none => simp [hsnd] at h
        | some q =>
          simp only [hsnd] at h
          injection h with h1
          injection h1 with hb hr
          subst hb
          obtain ⟨hne1, hfx1⟩ := ihb ts p.1 p.2 hfst
          obtain ⟨hne2, hfx2⟩ := ihst p.2 q.1 q.2 hsnd
          exact ⟨by simp [blockListNE, hne1, hne2], by simp [blockListFixed, hfx1, hfx2]⟩

theorem document_inv : ∀ ts d, document ts = some d → docNE d = true ∧ docFixed d = true := by
  intro ts d h
  unfold document at h
  cases hst : blockStarC (4 * ts.length + 8) ts with
  | none => rw [hst] at h; simp at h
  | some p =>
    obtain ⟨bs, rem⟩ := p
    rw [hst] at h
    cases rem with
    | cons t rest => simp at h
    | nil =>
      obtain ⟨hne, hfx⟩ := (block_inv (4 * ts.length + 8)).2.2.2 ts bs [] hst
      injection h with h1
      cases h1
      exact ⟨hne, hfx⟩

/-! The claims. -/

/-- C1: the fidelity claim requires every Text leaf to carry the verbatim
text of the TextRun (Word) tokens consumed for its node.  The code cannot
satisfy it: `Token::Word` carries no text, and both parsers emit the fixed
placeholder `Text("word")` for every Word token and the fixed title
`"Section"` for every heading, whatever the source text was.  This theorem
evaluates both parsers on a single Word token and on a heading line,
exhibiting the placeholder output. -/
theorem c1_placeholder_substitution :
    document [Token.Word] = some { blocks := [Block.Paragraph [Inline.Text "word"]] } ∧
    parse_document_winnow [Token.Word] =
      some { blocks := [Block.Paragraph [Inline.Text "word"]] } ∧
    document [Token.Heading1, Token.Word, Token.Newline] =
      some { blocks := [Block.Section 1 "Section" []] } ∧
    parse_document_winnow [Token.Heading1, Token.Word, Token.Newline] =
      some { blocks := [Block.Section 1 "Section" []] } :=
  ⟨rfl, rfl, rfl, rfl⟩

/-- C2: after its heading line a section greedily parses all remaining
blocks as children with no level check, so every run of consecutive
heading lines parses to a strictly right-nested chain, whatever the
declared levels; in particular the tokens of `"= A\n\n== B\n"` parse to
one top-level level-1 section containing exactly one child level-2
section.  Both backends. -/
theorem c2_greedy_nesting_chain :
    (∀ hs : List Token, (∀ t ∈ hs, (headingLevel t).isSome = true) →
      document (runTokens hs) = some { blocks := chainList hs } ∧
      parse_document_winnow (runTokens hs) = some { blocks := chainList hs }) ∧
    (document [Token.Heading1, Token.Word, Token.BlankLine,
        Token.Heading2, Token.Word, Token.Newline] =
      some { blocks := [Block.Section 1 "Section" [Block.Section 2 "Section" []]] } ∧
     parse_document_winnow [Token.Heading1, Token.Word, Token.BlankLine,
        Token.Heading2, Token.Word, Token.Newline] =
      some { blocks := [Block.Section 1 "Section" [Block.Section 2 "Section" []]] }) := by
  constructor
  · intro hs hall
    have hdoc : document (runTokens hs) = some { blocks := chainList hs } := by
      unfold document
      rw [runTokens_length hs, blockStarC_run hs hall (4 * (3 * hs.length) + 8) (by omega)]
    exact ⟨hdoc, by rw [← parsersAgree]; exact hdoc⟩
  · exact ⟨rfl, rfl⟩

/-- Witness for C2: a shallower heading after a deeper one (levels 2 then
1) still nests, giving the right-nested chain. -/
theorem c2_greedy_nesting_chain_witness :
    document (runTokens [Token.Heading2, Token.Heading1]) =
      some { blocks := chainList [Token.Heading2, Token.Heading1] } ∧
    parse_document_winnow (runTokens [Token.Heading2, Token.Heading1]) =
      some { blocks := chainList [Token.Heading2, Token.Heading1] } :=
  c2_greedy_nesting_chain.1 [Token.Heading2, Token.Heading1] (by decide)

/-- C3: the claim requires the tokens of `"= A\n\n= B\n"` (two level-1
headings) to parse to two top-level sections.  Both parsers instead
produce a single top-level level-1 section with the second level-1
section nested inside it, by the greedy nesting policy; this theorem
evaluates both parsers at that input. -/
theorem c3_sibling_sections_nested :
    document [Token.Heading1, Token.Word, Token.BlankLine,
        Token.Heading1, Token.Word, Token.Newline] =
      some { blocks := [Block.Section 1 "Section" [Block.Section 1 "Section" []]] } ∧
    parse_document_winnow [Token.Heading1, Token.Word, Token.BlankLine,
        Token.Heading1, Token.Word, Token.Newline] =
      some { blocks := [Block.Section 1 "Section" [Block.Section 1 "Section" []]] } :=
  ⟨rfl, rfl⟩

/-- C4: on every token sequence the Chumsky backend (`document`) and the
Winnow backend (`parse_document_winnow`) agree: both fail, or both
succeed with equal Documents. -/
theorem c4_backends_agree : ∀ ts : List Token, document ts = parse_document_winnow ts :=
  parsersAgree

/-- C5: the claim requires `"**word"` (BoldDelimiter, Word, no closing
delimiter) to fail with the structured error `UnclosedDelimiter` carrying
kind Bold and opening position 0.  Both parsers do fail on this input,
but with a bare generic failure: neither parser ever constructs a
`ParseError` value, so no `UnclosedDelimiter` is reported.  This theorem evaluates both parsers at that input. -/
theorem c5_unclosed_bold_plain_failure :
    document [Token.BoldDelimiter, Token.Word] = none ∧
    parse_document_winnow [Token.BoldDelimiter, Token.Word] = none :=
  ⟨rfl, rfl⟩

/-- C6: the claim requires recovery with resynchronization and an ordered
list of structured ParseFailure values.  The code is fail-fast: the
`ErrorRecovery` collector is constructed with `fail_fast = true` and an
empty error list and is never driven by either parser, and a document
whose first block is well-formed but whose second block is malformed
fails outright with no partial result and no error list.  This theorem
evaluates `ErrorRecovery::new` and both parsers at such an input. -/
theorem c6_fail_fast_unwired :
    ErrorRecovery.new.fail_fast = true ∧
    ErrorRecovery.new.errors = [] ∧
    document [Token.Word, Token.BlankLine, Token.BoldDelimiter, Token.Word] = none ∧
    parse_document_winnow [Token.Word, Token.BlankLine, Token.BoldDelimiter, Token.Word] =
      none :=
  ⟨rfl, rfl, rfl, rfl⟩

/-- C7: in every Document either parser returns, every Bold and every
Italic node contains at least one Inline child. -/
theorem c7_delimiter_content_nonempty : ∀ (ts : List Token) (d : Document),
    (document ts = some d → docNE d = true) ∧
    (parse_document_winnow ts = some d → docNE d = true) := by
  intro ts d
  constructor
  · intro h
    exact (document_inv ts d h).1
  · intro h
    rw [← parsersAgree] at h
    exact (document_inv ts d h).1

/-- Witness for C7 at the bold-word input. -/
theorem c7_delimiter_content_nonempty_witness :
    document [Token.BoldDelimiter, Token.Word, Token.BoldDelimiter] =
      some { blocks := [Block.Paragraph [Inline.Bold [Inline.Text "word"]]] } ∧
    docNE { blocks := [Block.Paragraph [Inline.Bold [Inline.Text "word"]]] } = true :=
  ⟨rfl,
   (c7_delimiter_content_nonempty [Token.BoldDelimiter, Token.Word, Token.BoldDelimiter]
      { blocks := [Block.Paragraph [Inline.Bold [Inline.Text "word"]]] }).1 rfl⟩

/-- C8: parsing the empty token sequence succeeds and returns a Document
with zero top-level blocks, in both backends. -/
theorem c8_empty_input :
    document [] = some { blocks := [] } ∧
    parse_document_winnow [] = some { blocks := [] } :=
  ⟨rfl, rfl⟩

/-- C9: in every Document either parser returns, every Text leaf is
exactly the fixed string "word" and every Section title is exactly
"Section"; the tokens carry no text, so the tree is a function of the
token tags alone. -/
theorem c9_placeholder_only_output : ∀ (ts : List Token) (d : Document),
    (document ts = some d → docFixed d = true) ∧
    (parse_document_winnow ts = some d → docFixed d = true) := by
  intro ts d
  constructor
  · intro h
    exact (document_inv ts d h).2
  · intro h
    rw [← parsersAgree] at h
    exact (document_inv ts d h).2

/-- Witness for C9 at a heading plus paragraph input. -/
theorem c9_placeholder_only_output_witness :
    document [Token.Heading1, Token.Word, Token.BlankLine, Token.Word] =
      some { blocks := [Block.Section 1 "Section" [Block.Paragraph [Inline.Text "word"]]] } ∧
    docFixed { blocks :=
      [Block.Section 1 "Section" [Block.Paragraph [Inline.Text "word"]]] } = true :=
  ⟨rfl,
   (c9_placeholder_only_output [Token.Heading1, Token.Word, Token.BlankLine, Token.Word]
      { blocks := [Block.Section 1 "Section" [Block.Paragraph [Inline.Text "word"]]] }).1 rfl⟩

/-- C10: every token sequence that begins with BlankLine fails in both
backends: no block alternative starts at a blank line, and the star of
blocks leaves the input unconsumed, so the end-of-input check fails. -/
theorem c10_leading_blankline_fails : ∀ ts : List Token,
    document (Token.BlankLine :: ts) = none ∧
    parse_document_winnow (Token.BlankLine :: ts) = none := by
  intro ts
  have hdoc : document (Token.BlankLine :: ts) = none := by
    unfold document
    obtain ⟨m, hm⟩ : ∃ m, 4 * (Token.BlankLine :: ts).length + 8 = m + 1 :=
      ⟨4 * (Token.BlankLine :: ts).length + 7, by omega⟩
    rw [hm, blockStarC_blank]
  exact ⟨hdoc, by rw [← parsersAgree]; exact hdoc⟩

end Doctora
